import Mathlib

/-!
Verification of the manifest-driven agent registry of `easops_automation`
(`docker/langgraph/app/core/agent_registry.py`) and its SQLite run ledger
(`docker/langgraph/app/storage/schema_store.py`), as a shallow embedding.

Python strings are modelled as Lean `String` (`List Char` under the hood);
character-level operations (`str.lower`, `str.lstrip`, lexicographic `<`)
are modelled on `List Char`.  `Char.toLower` models Python `str.lower` on
the ASCII range, which covers all identifiers appearing in the repository.
Python dicts are modelled as association lists with Python's semantics:
update-in-place on an existing key, append on a fresh key, first-match
lookup.  Fallible Python code returns `Except`.
-/

namespace EasOps

/-! ## Python string primitives -/

/-- Python `s.lower()`, charwise (ASCII range). -/
def pyLower (s : String) : String :=
  String.mk (s.data.map Char.toLower)

/-- Python single-character `str.replace(old, new)` is exactly a charwise
substitution; this models `s.replace(old, new)` for one-character patterns. -/
def pyReplaceChar (old new : Char) (s : String) : String :=
  String.mk (s.data.map (fun c => if c = old then new else c))

/-- Lexicographic strict order on lists, the rule Python applies both to
strings (charwise, by code point) and to tuples (componentwise). -/
def lexLt {α : Type} [LinearOrder α] : List α → List α → Bool
  | _, [] => false
  | [], _ :: _ => true
  | a :: as, b :: bs => if a < b then true else if b < a then false else lexLt as bs

/-- Lexicographic (code-point) strict order on character lists: Python `<`
on strings. -/
def charListLt : List Char → List Char → Bool := lexLt

/-- Python `a < b` on strings. -/
def strLtB (a b : String) : Bool := charListLt a.data b.data

/-- Python `a <= b` on strings (used by `sorted`). -/
def strLeB (a b : String) : Bool := !(strLtB b a)

/-- One insertion step of a stable insertion sort. -/
def insertLe {α : Type} (le : α → α → Bool) (x : α) : List α → List α
  | [] => [x]
  | y :: ys => if le x y then x :: y :: ys else y :: insertLe le x ys

/-- Python `sorted` (stable, ascending). -/
def sortByLe {α : Type} (le : α → α → Bool) (l : List α) : List α :=
  l.foldr (insertLe le) []

/-- Python `sorted` on a list of strings (ascending lexicographic). -/
def pySorted (l : List String) : List String :=
  sortByLe strLeB l

/-- Python `", ".join(l)`. -/
def joinComma : List String → String
  | [] => ""
  | [x] => x
  | x :: y :: rest => x ++ ", " ++ joinComma (y :: rest)

/-! ## Version sort key (`_version_sort_key`, `resolve_latest_version`) -/

/-- Strict order on `List Nat`, lexicographic with shorter-prefix-first:
the comparison Python performs on release tuples. -/
def natListLt : List Nat → List Nat → Bool := lexLt

/-- Python `version.lstrip("vV")`: drop every leading `v`/`V`. -/
def vStrip (s : List Char) : List Char :=
  s.dropWhile (fun c => c = 'v' || c = 'V')

/-- Split a character list on `'.'` (Python `value.split(".")`). -/
def splitDot : List Char → List (List Char)
  | [] => [[]]
  | c :: cs =>
    if c = '.' then [] :: splitDot cs
    else
      match splitDot cs with
      | [] => [[c]]
      | p :: ps => (c :: p) :: ps

/-- Decimal value of a digit string. -/
def digitsToNat (l : List Char) : Nat :=
  l.foldl (fun n c => n * 10 + (c.toNat - 48)) 0

/-- Parse one dotted component: nonempty and all decimal digits. -/
def parseComponent (l : List Char) : Option Nat :=
  if l = [] then none
  else if l.all Char.isDigit then some (digitsToNat l) else none

/-- Modelled from the spec: the repository calls `packaging.version.Version`
(third-party, absent from `src/`) on the v-stripped string; the spec says
"attempt semantic-version parse ... compare numerically".  We model the
numeric-release fragment: a version parses iff it is a nonempty dot-separated
sequence of decimal numerals (so `1`, `1.0`, `2.0.0` parse; `a`, `ab`, `1.`,
`1.0rc1` do not), and releases compare numerically componentwise. -/
def parseRelease (l : List Char) : Option (List Nat) :=
  (splitDot l).mapM parseComponent

/-- Canonical comparison form of a release: `packaging` strips trailing
zeros before comparing, so `1.0` and `1` compare equal. -/
def releaseCanon (l : List Nat) : List Nat :=
  (l.reverse.dropWhile (fun n => n == 0)).reverse

/-- The sort key returned by `_version_sort_key`: Python's
`(0, Version(value))` is `sem`, the fallback `(1, value)` is `str`
(holding the v-stripped string, as in the source). -/
inductive VKey where
  | sem (release : List Nat)
  | str (value : List Char)
deriving DecidableEq, Repr

/-- `_version_sort_key(version)`: strip leading `v`/`V`; tag semantic
releases with `0` and the string fallback with `1` (here: the two
constructors of `VKey`). -/
def _version_sort_key (version : String) : VKey :=
  let value := vStrip version.data
  match parseRelease value with
  | some r => .sem (releaseCanon r)
  | none => .str value

/-- Python tuple `>` on sort keys: `(1, _) > (0, _)`; equal tags compare
payloads (releases numerically, strings lexicographically). -/
def vkeyGt : VKey → VKey → Bool
  | .sem x, .sem y => natListLt y x
  | .sem _, .str _ => false
  | .str _, .sem _ => true
  | .str x, .str y => charListLt y x

/-- One comparison step of Python `max(..., key=_version_sort_key)`:
the candidate is replaced only when its key is strictly greater. -/
def maxStep (cur y : String) : String :=
  if vkeyGt (_version_sort_key y) (_version_sort_key cur) then y else cur

/-- Python `max(iterable, key=_version_sort_key)`: first maximal element,
`none` on an empty iterable (`ValueError`). -/
def pyMaxByKey : List String → Option String
  | [] => none
  | v :: vs => some (vs.foldl maxStep v)

/-- Errors escaping the dispatch handler: `HTTPException(status, detail)`
raised on purpose, or an exception propagating uncaught to the framework. -/
inductive DispatchErr where
  | http (status : Nat) (detail : String)
  | uncaught (msg : String)
deriving DecidableEq, Repr

/-- `resolve_latest_version(versions)`: `max` by `_version_sort_key`;
an empty collection raises `HTTPException(404)`. -/
def resolve_latest_version (versions : List String) : Except DispatchErr String :=
  match pyMaxByKey versions with
  | some v => .ok v
  | none => .error (.http 404 "No versions available for agent")

/-! ## JSON values and Python dicts -/

/-- A parsed JSON value (`json.loads` output). -/
inductive Json where
  | null
  | bool (b : Bool)
  | num (n : Int)
  | str (s : String)
  | arr (elems : List Json)
  | obj (fields : List (String × Json))

/-- Python dict lookup (`d.get(k)` / `k in d`): first matching key.  The
construction below never produces duplicate keys, matching dict semantics. -/
def alookup {β : Type} (k : String) : List (String × β) → Option β
  | [] => none
  | (k', v) :: rest => if k' = k then some v else alookup k rest

/-- Python dict assignment `d[k] = v`: update in place when the key exists,
append otherwise (dicts preserve insertion order). -/
def aset {β : Type} (k : String) (v : β) : List (String × β) → List (String × β)
  | [] => [(k, v)]
  | (k', v') :: rest => if k' = k then (k, v) :: rest else (k', v') :: aset k v rest

/-- Python `d.keys()` in insertion order. -/
def akeys {β : Type} (d : List (String × β)) : List String :=
  d.map Prod.fst

/-! ## Manifest and agent definition (`AgentManifest`, `AgentDefinition`) -/

/-- Schema for agent metadata; every field of the pydantic model is
required (`Dict[str, str]` fields become string association lists). -/
structure AgentManifest where
  agent_id : String
  version : String
  name : String
  category : String
  description : String
  when_to_use : String
  inputs : List (String × String)
  outputs : List (String × String)
  owner : String
  frequency : String
  cost : String
deriving DecidableEq, Repr

/-- Runtime bindings for one agent version.  The pydantic classes are
opaque to the registry mechanism, so `input_model` is modelled by what
dispatch calls on it — `input_model(**payload)`, a fallible parse of the
raw dict — and `output_model` by the class object itself (a token compared
by identity, as Python compares classes) together with its
`model_validate` method (`output_validate`).  `build_graph` models
`build_graph()` returning a graph whose `invoke` is the contained
function; any of these Python calls can raise, hence `Except`. -/
structure AgentDefinition where
  manifest : AgentManifest
  input_model : List (String × Json) → Except String Json
  output_model : Nat
  output_validate : Json → Except String Json
  build_graph : Except String (Json → Except String Json)
  prepare_state : Json → Except String Json
  module_path : String

/-- `registry[agent_id][version] = definition`. -/
abbrev VersionMap := List (String × AgentDefinition)

/-- The registry index: agent id → version → definition. -/
abbrev Registry := List (String × VersionMap)

/-! ## Alias generation and lookup (`_aliases`, `_build_alias_registry`,
`_resolve_versions`) -/

/-- `_normalize_agent_id`: lowercase only. -/
def _normalize_agent_id (agent_id : String) : String :=
  pyLower agent_id

/-- `_aliases(agent_id)`: the normalized id, its all-underscore variant and
its all-hyphen variant.  The source builds a Python set; we keep the list
(duplicates collapse in the alias registry since they map to one value). -/
def _aliases (agent_id : String) : List String :=
  let normalized := _normalize_agent_id agent_id
  [normalized, pyReplaceChar '-' '_' normalized, pyReplaceChar '_' '-' normalized]

/-- Inner loop of `_build_alias_registry`: `alias_registry[alias] = versions`
for every alias of one id. -/
def insertAliases (aliases : List String) (vm : VersionMap) (acc : Registry) : Registry :=
  aliases.foldl (fun a al => aset al vm a) acc

/-- Accumulator form of `_build_alias_registry`'s loop over the registry. -/
def buildAliasAux (acc : Registry) : Registry → Registry
  | [] => acc
  | (agent_id, vm) :: rest => buildAliasAux (insertAliases (_aliases agent_id) vm acc) rest

/-- `_build_alias_registry(registry)`. -/
def _build_alias_registry (registry : Registry) : Registry :=
  buildAliasAux [] registry

/-- `_resolve_versions(registry, agent_id)`: normalize, exact lookup,
else `HTTPException(404, "Agent not found")`. -/
def _resolve_versions (registry : Registry) (agent_id : String) :
    Except DispatchErr VersionMap :=
  match alookup (_normalize_agent_id agent_id) registry with
  | some versions => .ok versions
  | none => .error (.http 404 "Agent not found")

/-- Modelled from the claim's wording (for comparison with the code, not
from the source): `'-'` and `'_'` are the separator characters. -/
def sepLikeChar (c : Char) : Bool :=
  c = '-' || c = '_'

/-- Modelled from the claim's wording: two characters are spellings of one
another when they agree up to letter case or are both separators. -/
def charSpellEq (a b : Char) : Bool :=
  (a.toLower == b.toLower) || (sepLikeChar a && sepLikeChar b)

/-- Modelled from the claim's wording: charwise spelling equivalence. -/
def listSpelling : List Char → List Char → Bool
  | [], [] => true
  | a :: as, b :: bs => charSpellEq a b && listSpelling as bs
  | _, _ => false

/-- Modelled from the claim's wording: `s` is a spelling of the id obtained
by changing letter case and interchanging `'-'`/`'_'` separators. -/
def claimSpelling (s agent_id : String) : Bool :=
  listSpelling s.data agent_id.data

/-! ## Manifest loading (`load_manifest`) -/

/-- State of the `manifest.json` file's content once read: either text that
`json.loads` rejects (with its message), or a parsed JSON value.
`json.loads` is external library code; we model its outcome. -/
inductive ManifestFile where
  | invalidJson (msg : String)
  | parsed (j : Json)

/-- The failure modes of `load_manifest`.  The source raises `ValueError`
with three distinct message families — `"Manifest file missing at …"`,
`"Invalid JSON in manifest …"`, `"Manifest validation failed for …"` —
modelled by the first three constructors; a fourth, unclassified failure is
the `TypeError` CPython raises from `AgentManifest(**payload)` when the
parsed JSON is not an object (the `**` unpacking needs a mapping), which
the `except ValidationError` clause does not catch. -/
inductive ManifestError where
  | notFound (path : String)
  | parseError (path : String) (msg : String)
  | validationError (path : String) (msg : String)
  | typeError (msg : String)
deriving DecidableEq, Repr

/-- Pydantic validation of a required `str` field.  (Pydantic v2 rejects
non-string JSON values for `str` fields in its default mode; it reports all
field errors at once while we stop at the first, which does not change the
failure mode.) -/
def getStrField (fields : List (String × Json)) (nm : String) : Except String String :=
  match alookup nm fields with
  | some (.str s) => .ok s
  | some _ => .error (nm ++ ": Input should be a valid string")
  | none => .error (nm ++ ": Field required")

/-- Pydantic validation of `Dict[str, str]` values. -/
def allStringValues (nm : String) :
    List (String × Json) → Except String (List (String × String))
  | [] => .ok []
  | (k, .str s) :: rest => do
    let tail ← allStringValues nm rest
    .ok ((k, s) :: tail)
  | (k, _) :: _ => .error (nm ++ "." ++ k ++ ": Input should be a valid string")

/-- Pydantic validation of a required `Dict[str, str]` field. -/
def getStrMapField (fields : List (String × Json)) (nm : String) :
    Except String (List (String × String)) :=
  match alookup nm fields with
  | some (.obj kvs) => allStringValues nm kvs
  | some _ => .error (nm ++ ": Input should be a valid dictionary")
  | none => .error (nm ++ ": Field required")

/-- `AgentManifest(**payload)` on an object payload: every field is
required and typed; extra keys are ignored (pydantic's default). -/
def validateManifestFields (fields : List (String × Json)) :
    Except String AgentManifest := do
  let agent_id ← getStrField fields "agent_id"
  let version ← getStrField fields "version"
  let nameField ← getStrField fields "name"
  let category ← getStrField fields "category"
  let description ← getStrField fields "description"
  let when_to_use ← getStrField fields "when_to_use"
  let inputs ← getStrMapField fields "inputs"
  let outputs ← getStrMapField fields "outputs"
  let owner ← getStrField fields "owner"
  let frequency ← getStrField fields "frequency"
  let cost ← getStrField fields "cost"
  .ok { agent_id := agent_id, version := version, name := nameField
        category := category, description := description
        when_to_use := when_to_use, inputs := inputs, outputs := outputs
        owner := owner, frequency := frequency, cost := cost }

/-- `load_manifest(manifest_path)`: missing file → `ValueError` ("missing
at"); un-parseable text → `ValueError` ("Invalid JSON"); object payload
failing pydantic validation → `ValueError` ("validation failed"); a parsed
payload that is not an object slips past all three `raise` sites and dies
with `TypeError` inside `AgentManifest(**payload)`. -/
def load_manifest (manifest_path : String) (file : Option ManifestFile) :
    Except ManifestError AgentManifest :=
  match file with
  | none => .error (.notFound manifest_path)
  | some (.invalidJson msg) => .error (.parseError manifest_path msg)
  | some (.parsed (.obj fields)) =>
    match validateManifestFields fields with
    | .ok m => .ok m
    | .error msg => .error (.validationError manifest_path msg)
  | some (.parsed _) => .error (.typeError "argument after ** must be a mapping")

/-- Modelled from the claim's wording (for comparison with the code): the
parsed manifest content has "any required field missing or mistyped" — for
a non-object value every required field is missing. -/
def specRequiredFieldProblem (j : Json) : Bool :=
  match j with
  | .obj fields => !(validateManifestFields fields).isOk
  | _ => true

/-! ## Module loading and discovery (`_load_agent_definition`,
`discover_agents`) -/

/-- An imported agent module: the six attributes `_load_agent_definition`
requires, each possibly absent.  The pydantic classes appear through what
the registry calls on them, as in `AgentDefinition`. -/
structure PyModule where
  agent_id : Option String
  agent_version : Option String
  agent_input_model : Option (List (String × Json) → Except String Json)
  agent_output_model : Option (Nat × (Json → Except String Json))
  build_graph : Option (Except String (Json → Except String Json))
  prepare_state : Option (Json → Except String Json)

/-- The names of absent required attributes, in the source's check order. -/
def missingAttrs (m : PyModule) : List String :=
  (if m.agent_id.isNone then ["agent_id"] else [])
    ++ (if m.agent_version.isNone then ["agent_version"] else [])
    ++ (if m.agent_input_model.isNone then ["agent_input_model"] else [])
    ++ (if m.agent_output_model.isNone then ["agent_output_model"] else [])
    ++ (if m.build_graph.isNone then ["build_graph"] else [])
    ++ (if m.prepare_state.isNone then ["prepare_state"] else [])

/-- `_load_agent_definition(module_path, manifest)`: import failure, any
missing attribute, and identity mismatch against the manifest are fatal
(`RuntimeError`). -/
def _load_agent_definition (module_path : String) (imported : Except String PyModule)
    (manifest : AgentManifest) : Except String AgentDefinition :=
  match imported with
  | .error exc =>
    .error ("Failed to import agent module '" ++ module_path ++ "': " ++ exc)
  | .ok m =>
    match m.agent_id, m.agent_version, m.agent_input_model, m.agent_output_model,
        m.build_graph, m.prepare_state with
    | some aid, some aver, some im, some om, some bg, some ps =>
      if aid ≠ manifest.agent_id then
        .error ("Manifest agent_id '" ++ manifest.agent_id ++ "' does not match module '"
          ++ aid ++ "' for " ++ module_path)
      else if aver ≠ manifest.version then
        .error ("Manifest version '" ++ manifest.version ++ "' does not match module '"
          ++ aver ++ "' for " ++ module_path)
      else
        .ok { manifest := manifest, input_model := im, output_model := om.1
              output_validate := om.2, build_graph := bg, prepare_state := ps
              module_path := module_path }
    | _, _, _, _, _, _ =>
      .error ("Agent module '" ++ module_path ++ "' is missing required attributes: "
        ++ joinComma (missingAttrs m))

/-- A version directory on disk: its name, the state of its
`manifest.json` (`none` = file absent), whether `agent.py` exists, and the
outcome of importing the module. -/
structure VersionDir where
  name : String
  manifestFile : Option ManifestFile
  hasAgentPy : Bool
  importResult : Except String PyModule

/-- An agent family directory with its version subdirectories. -/
structure AgentDir where
  name : String
  versionDirs : List VersionDir

/-- Discovery failures: `ValueError`/`TypeError` escaping `load_manifest`,
or a `RuntimeError` from the structural checks. -/
inductive DiscoverErr where
  | valueError (e : ManifestError)
  | runtimeError (msg : String)

/-- `sorted(p for p in dir.iterdir() if p.is_dir())` compares paths by
their name strings. -/
def versionDirLe (a b : VersionDir) : Bool := strLeB a.name b.name

/-- Path ordering for agent family directories. -/
def agentDirLe (a b : AgentDir) : Bool := strLeB a.name b.name

/-- `version_dir / "manifest.json"` as a path string. -/
def manifestPathOf (agentDirName vdName : String) : String :=
  agentDirName ++ "/" ++ vdName ++ "/manifest.json"

/-- `AGENT_MODULE_PREFIX` joined with directory names and `"agent"`. -/
def modulePathOf (agentDirName vdName : String) : String :=
  "docker.langgraph.app.agents." ++ agentDirName ++ "." ++ vdName ++ ".agent"

/-- The registration tail of `discover_agents`' loop body:
`versions = registry.setdefault(agent_id, {})`, the duplicate check (warn
and keep the first definition), and `versions[version] = definition`. -/
def registerDefinition (aid ver : String) (d : AgentDefinition) (reg : Registry) : Registry :=
  match alookup aid reg with
  | some versions =>
    if (alookup ver versions).isSome then reg
    else aset aid (aset ver d versions) reg
  | none => aset aid [(ver, d)] reg

/-- The body of `discover_agents`' inner loop for one version directory:
skip when `manifest.json` is absent (warning); propagate `load_manifest`
failures; missing `agent.py` after a loaded manifest is a fatal
`RuntimeError`; load the module; a duplicate `(agent_id, version)` pair is
a warning that keeps the first registration (the `setdefault` +
containment check + item assignment of the source). -/
def discoverStep (agentDirName : String) (reg : Registry) (vd : VersionDir) :
    Except DiscoverErr Registry :=
  match vd.manifestFile with
  | none => .ok reg
  | some mf =>
    match load_manifest (manifestPathOf agentDirName vd.name) (some mf) with
    | .error e => .error (.valueError e)
    | .ok manifest =>
      if vd.hasAgentPy then
        match _load_agent_definition (modulePathOf agentDirName vd.name)
            vd.importResult manifest with
        | .error msg => .error (.runtimeError msg)
        | .ok definition => .ok (registerDefinition manifest.agent_id manifest.version definition reg)
      else
        .error (.runtimeError ("Agent manifest found at "
          ++ manifestPathOf agentDirName vd.name ++ " but agent.py is missing"))

/-- The inner loop over a family's (sorted) version directories. -/
def discoverVersionDirs (agentDirName : String) :
    Registry → List VersionDir → Except DiscoverErr Registry
  | reg, [] => .ok reg
  | reg, vd :: rest =>
    match discoverStep agentDirName reg vd with
    | .error e => .error e
    | .ok reg' => discoverVersionDirs agentDirName reg' rest

/-- The outer loop over (sorted) agent family directories. -/
def discoverDirs : Registry → List AgentDir → Except DiscoverErr Registry
  | reg, [] => .ok reg
  | reg, ad :: rest =>
    match discoverVersionDirs ad.name reg (sortByLe versionDirLe ad.versionDirs) with
    | .error e => .error e
    | .ok reg' => discoverDirs reg' rest

/-- `discover_agents(base_path)` over the directory listing (an absent
base path yields the empty listing and hence the empty registry). -/
def discover_agents (dirs : List AgentDir) : Except DiscoverErr Registry :=
  discoverDirs [] (sortByLe agentDirLe dirs)

/-- Well-formedness produced by discovery: one entry per agent id, and one
entry per version within each id — "exactly one registry entry per
`(agent_id, version)` pair". -/
def RegistryWF (R : Registry) : Prop :=
  (akeys R).Nodup ∧ ∀ p ∈ R, (akeys p.2).Nodup

/-- A minimal agent definition used for concrete registries in theorems. -/
def trivialDef (agent_id ver : String) : AgentDefinition where
  manifest :=
    { agent_id := agent_id, version := ver, name := "n", category := "c"
      description := "d", when_to_use := "w", inputs := [], outputs := []
      owner := "o", frequency := "f", cost := "0" }
  input_model := fun _ => .error "unused"
  output_model := 0
  output_validate := fun j => .ok j
  build_graph := .error "unused"
  prepare_state := fun j => .ok j
  module_path := "m"

/-! ## Dispatch (`run_agent`) -/

/-- The 400 detail for a known id with an unknown version, exactly as the
source formats it: `f"Version '{version}' not found for agent
'{agent_id}'. Available versions: {', '.join(sorted(versions.keys()))}."` -/
def versionNotFoundDetail (version agent_id : String) (ks : List String) : String :=
  "Version '" ++ version ++ "' not found for agent '" ++ agent_id
    ++ "'. Available versions: " ++ joinComma (pySorted ks) ++ "."

/-- The tail of `run_agent` once a definition is selected: payload parsing
(any exception → 400 with the underlying message), `build_graph()` and
`prepare_state` (outside any `try`: exceptions propagate uncaught),
`graph.invoke` (any exception → 500 with a fixed opaque detail), then
output validation (`output_model` is always truthy; exceptions propagate
uncaught). -/
def runWithDefinition (definition : AgentDefinition) (payload : List (String × Json)) :
    Except DispatchErr Json :=
  match definition.input_model payload with
  | .error exc => .error (.http 400 ("Invalid payload: " ++ exc))
  | .ok parsed_payload =>
    match definition.build_graph with
    | .error msg => .error (.uncaught msg)
    | .ok graph =>
      match definition.prepare_state parsed_payload with
      | .error msg => .error (.uncaught msg)
      | .ok state =>
        match graph state with
        | .error _ => .error (.http 500 "Agent execution failed")
        | .ok result =>
          match definition.output_validate result with
          | .error msg => .error (.uncaught msg)
          | .ok out => .ok out

/-- `run_agent(agent_id, payload, version)`: resolve the alias (404 when
unknown); `if version:` — Python truthiness, so `""` counts as omitted —
exact lookup with a 400 listing the available versions on a miss;
otherwise pick the latest version.  `versions[latest_version]` with a
non-key would be an uncaught `KeyError` (unreachable, since the maximum is
drawn from the keys). -/
def run_agent (registry_by_alias : Registry) (agent_id : String)
    (payload : List (String × Json)) (version : Option String) :
    Except DispatchErr Json :=
  match _resolve_versions registry_by_alias agent_id with
  | .error e => .error e
  | .ok versions =>
    match (match version with
           | some v => if v = "" then none else some v
           | none => none : Option String) with
    | some v =>
      match alookup v versions with
      | some definition => runWithDefinition definition payload
      | none => .error (.http 400 (versionNotFoundDetail v agent_id (akeys versions)))
    | none =>
      match resolve_latest_version (akeys versions) with
      | .error e => .error e
      | .ok latest_version =>
        match alookup latest_version versions with
        | some definition => runWithDefinition definition payload
        | none => .error (.uncaught "KeyError")

/-- A definition whose pipeline invocation fails. -/
def failingRunDef : AgentDefinition where
  manifest :=
    { agent_id := "x", version := "1.0.0", name := "n", category := "c"
      description := "d", when_to_use := "w", inputs := [], outputs := []
      owner := "o", frequency := "f", cost := "0" }
  input_model := fun _ => .ok .null
  output_model := 2
  output_validate := fun j => .ok j
  build_graph := .ok fun _ => .error "boom"
  prepare_state := fun j => .ok j
  module_path := "m"

/-- A concrete, fully valid manifest JSON object. -/
def goodManifestJson : List (String × Json) :=
  [("agent_id", .str "x"), ("version", .str "1.0.0"), ("name", .str "X"),
   ("category", .str "ops"), ("description", .str "d"), ("when_to_use", .str "w"),
   ("inputs", .obj [("q", .str "query")]), ("outputs", .obj []),
   ("owner", .str "o"), ("frequency", .str "daily"), ("cost", .str "low")]

/-- The manifest `goodManifestJson` validates to. -/
def goodManifest : AgentManifest where
  agent_id := "x"
  version := "1.0.0"
  name := "X"
  category := "ops"
  description := "d"
  when_to_use := "w"
  inputs := [("q", "query")]
  outputs := []
  owner := "o"
  frequency := "daily"
  cost := "low"

/-- A module exposing all six required attributes, matching `goodManifest`. -/
def goodModule : PyModule where
  agent_id := some "x"
  agent_version := some "1.0.0"
  agent_input_model := some fun _ => .ok .null
  agent_output_model := some (1, fun j => .ok j)
  build_graph := some (.ok fun j => .ok j)
  prepare_state := some fun j => .ok j

/-- The definition `_load_agent_definition` produces from `goodModule`. -/
def loadedDef : AgentDefinition where
  manifest := goodManifest
  input_model := fun _ => .ok .null
  output_model := 1
  output_validate := fun j => .ok j
  build_graph := .ok fun j => .ok j
  prepare_state := fun j => .ok j
  module_path := modulePathOf "x" "v1"

/-- A valid version directory for agent `"x"`. -/
def goodDir : VersionDir where
  name := "v1"
  manifestFile := some (.parsed (.obj goodManifestJson))
  hasAgentPy := true
  importResult := .ok goodModule

/-- A version directory whose manifest is present but whose `agent.py`
is missing. -/
def badVersionDir : VersionDir where
  name := "v1"
  manifestFile := some (.parsed (.obj goodManifestJson))
  hasAgentPy := false
  importResult := .error "unused"

/-- A registry already holding `("x", "1.0.0")`. -/
def regX : Registry := [("x", [("1.0.0", trivialDef "x" "1.0.0")])]

/-! ## Response-type composer (`_build_response_model`) -/

/-- Every registered definition, in registry iteration order
(`registry.values()`, then `versions.values()`). -/
def allDefs (reg : Registry) : List AgentDefinition :=
  (reg.map (fun p => p.2.map Prod.snd)).flatten

/-- The `unique_models` accumulation: append each model class not already
collected (`not in` — classes compare by identity, here by token). -/
def dedupApp (acc : List Nat) : List Nat → List Nat
  | [] => acc
  | m :: ms => if m ∈ acc then dedupApp acc ms else dedupApp (acc ++ [m]) ms

/-- `unique_models` over the whole registry. -/
def uniqueModels (reg : Registry) : List Nat :=
  dedupApp [] ((allDefs reg).map AgentDefinition.output_model)

/-- The composed response shape: one model class, or the `A | B | …` union
type (Python's `types.UnionType` flattens, so the `merged | model` fold
over two or more distinct classes is the union of the whole list). -/
inductive ResponseModel where
  | model (m : Nat)
  | union (ms : List Nat)
deriving DecidableEq, Repr

/-- `_build_response_model(registry)`: `None` when no definitions exist,
the lone distinct output model, else the `|`-fold union of all distinct
models.  (The source's `if merged is None: warning` fallback is dead code
once two or more models exist — the fold always produces a union — so the
function is total and never fails registration.) -/
def _build_response_model (reg : Registry) : Option ResponseModel :=
  match uniqueModels reg with
  | [] => none
  | [m] => some (.model m)
  | m₁ :: m₂ :: rest => some (.union (m₁ :: m₂ :: rest))

/-- A registry with two definitions of distinct output models (0 and 1). -/
def regUnion : Registry :=
  [("x", [("1", trivialDef "x" "1")]), ("y", [("1.0.0", loadedDef)])]

/-! ## Run ledger (`schema_store.save_run` / `get_run`) -/

/-- A row of the `agent_runs` table (`run_id TEXT PRIMARY KEY`), which is
also what `_row_to_record` returns: `created_at` holds the ISO-format
timestamp string, on which the `isoformat`/`fromisoformat` round-trip is
the identity. -/
structure AgentRunRecord where
  run_id : String
  agent_id : String
  agent_version : String
  input_schema : String
  output_schema : String
  metadata : Option String
  created_at : String
deriving DecidableEq, Repr

/-- The `agent_runs` table keyed by its primary key. -/
abbrev RunDb := List (String × AgentRunRecord)

/-- Minimal JSON string escaping (quote and backslash; the ledger's
payloads are plain text). -/
def escapeJsonChar (c : Char) : String :=
  if c = '\\' then "\\\\" else if c = '"' then "\\\"" else String.singleton c

/-- Escape a string for `json.dumps`. -/
def escapeJson (s : String) : String :=
  String.join (s.data.map escapeJsonChar)

mutual

/-- `json.dumps(value, separators=(",", ":"))`: compact serialization.
(`json` is standard-library code; modelled by its documented output.) -/
def dumps : Json → String
  | .null => "null"
  | .bool true => "true"
  | .bool false => "false"
  | .num n => toString n
  | .str s => "\"" ++ escapeJson s ++ "\""
  | .arr es => "[" ++ dumpsList es ++ "]"
  | .obj fs => "\x7b" ++ dumpsFields fs ++ "\x7d"

/-- Comma-joined array elements. -/
def dumpsList : List Json → String
  | [] => ""
  | [j] => dumps j
  | j :: j' :: rest => dumps j ++ "," ++ dumpsList (j' :: rest)

/-- Comma-joined `"key":value` object fields. -/
def dumpsFields : List (String × Json) → String
  | [] => ""
  | [(k, j)] => "\"" ++ escapeJson k ++ "\":" ++ dumps j
  | (k, j) :: f :: rest =>
    "\"" ++ escapeJson k ++ "\":" ++ dumps j ++ "," ++ dumpsFields (f :: rest)

end

/-- `_serialize_json(value)`: `None` → `"null"`, strings pass through
unquoted, everything else is compact-dumped. -/
def _serialize_json (value : Json) : String :=
  match value with
  | .null => "null"
  | .str s => s
  | v => dumps v

/-- `save_run(...)`: serialize the JSON fields, default `created_at` to
the current UTC time (`created_at or datetime.now(timezone.utc)` — passed
here explicitly as `now`; datetimes are always truthy, so `or` is a
default), then `INSERT OR REPLACE` keyed on the primary key `run_id`. -/
def save_run (run_id agent_id agent_version : String) (input_schema output_schema : Json)
    (metadata : Option Json) (created_at : Option String) (now : String)
    (db : RunDb) : RunDb :=
  let created := created_at.getD now
  aset run_id
    { run_id := run_id, agent_id := agent_id, agent_version := agent_version
      input_schema := _serialize_json input_schema
      output_schema := _serialize_json output_schema
      metadata := metadata.map _serialize_json
      created_at := created } db

/-- `_row_to_record`: parse `created_at` back (`fromisoformat` of the
stored `isoformat` string — the identity here) and rebuild the record. -/
def _row_to_record (row : AgentRunRecord) : AgentRunRecord :=
  { row with created_at := row.created_at }

/-- `get_run(run_id)`: point lookup by primary key. -/
def get_run (db : RunDb) (run_id : String) : Option AgentRunRecord :=
  (alookup run_id db).map _row_to_record

/-- Number of stored rows under one `run_id`. -/
def countKey (k : String) (db : RunDb) : Nat :=
  (db.filter (fun p => p.1 == k)).length

/-! ## Order lemmas for the lexicographic comparison -/

theorem lexLt_irrefl {α : Type} [LinearOrder α] (l : List α) : lexLt l l = false := by
  induction l with
  | nil => rfl
  | cons a as ih => simp [lexLt, lt_irrefl, ih]

theorem lexLt_trans {α : Type} [LinearOrder α] (a : List α) :
    ∀ b c : List α, lexLt a b = true → lexLt b c = true → lexLt a c = true := by
  induction a with
  | nil =>
    intro b c h1 h2
    cases c with
    | nil =>
      cases b with
      | nil => exact h1
      | cons y bs => simp [lexLt] at h2
    | cons z cs => simp [lexLt]
  | cons x as ih =>
    intro b c h1 h2
    cases b with
    | nil => simp [lexLt] at h1
    | cons y bs =>
      cases c with
      | nil => simp [lexLt] at h2
      | cons z cs =>
        simp only [lexLt] at h1 h2 ⊢
        by_cases hxy : x < y
        · by_cases hyz : y < z
          · simp [lt_trans hxy hyz]
          · by_cases hzy : z < y
            · simp [hyz, hzy] at h2
            · have hyzeq : y = z := le_antisymm (not_lt.mp hzy) (not_lt.mp hyz)
              subst hyzeq
              simp [hxy]
        · by_cases hyx : y < x
          · simp [hxy, hyx] at h1
          · have hxy' : x = y := le_antisymm (not_lt.mp hyx) (not_lt.mp hxy)
            subst hxy'
            simp only [hxy, if_neg, lt_irrefl, if_false] at h1
            by_cases hxz : x < z
            · simp [hxz]
            · by_cases hzx : z < x
              · simp [hxz, hzx] at h2
              · have hxz' : x = z := le_antisymm (not_lt.mp hzx) (not_lt.mp hxz)
                subst hxz'
                simp only [lt_irrefl, if_false] at h2 ⊢
                exact ih bs cs h1 h2

theorem lexLt_trichotomy {α : Type} [LinearOrder α] (a : List α) :
    ∀ b : List α, lexLt a b = true ∨ lexLt b a = true ∨ a = b := by
  induction a with
  | nil =>
    intro b
    cases b with
    | nil => right; right; rfl
    | cons y bs => left; rfl
  | cons x as ih =>
    intro b
    cases b with
    | nil => right; left; rfl
    | cons y bs =>
      rcases lt_trichotomy x y with hxy | hxy | hxy
      · left; simp [lexLt, hxy]
      · subst hxy
        rcases ih bs with h | h | h
        · left; simp [lexLt, lt_irrefl, h]
        · right; left; simp [lexLt, lt_irrefl, h]
        · right; right; rw [h]
      · right; left; simp [lexLt, hxy]

/-! ## Order lemmas for the version sort key -/

theorem vkeyGt_irrefl (a : VKey) : vkeyGt a a = false := by
  cases a with
  | sem x => simpa [vkeyGt, natListLt] using lexLt_irrefl x
  | str x => simpa [vkeyGt, charListLt] using lexLt_irrefl x

theorem vkeyGt_trans (a b c : VKey) (h1 : vkeyGt a b = true) (h2 : vkeyGt b c = true) :
    vkeyGt a c = true := by
  cases a with
  | sem x =>
    cases b with
    | sem y =>
      cases c with
      | sem z => exact lexLt_trans z y x h2 h1
      | str z => simp [vkeyGt] at h2
    | str y => simp [vkeyGt] at h1
  | str x =>
    cases b with
    | sem y =>
      cases c with
      | sem z => rfl
      | str z => simp [vkeyGt] at h2
    | str y =>
      cases c with
      | sem z => rfl
      | str z => exact lexLt_trans z y x h2 h1

theorem vkeyGt_trichotomy (a b : VKey) :
    vkeyGt a b = true ∨ vkeyGt b a = true ∨ a = b := by
  cases a with
  | sem x =>
    cases b with
    | sem y =>
      rcases lexLt_trichotomy x y with h | h | h
      · right; left; simpa [vkeyGt, natListLt] using h
      · left; simpa [vkeyGt, natListLt] using h
      · right; right; rw [h]
    | str y => right; left; rfl
  | str x =>
    cases b with
    | sem y => left; rfl
    | str y =>
      rcases lexLt_trichotomy x y with h | h | h
      · right; left; simpa [vkeyGt, charListLt] using h
      · left; simpa [vkeyGt, charListLt] using h
      · right; right; rw [h]

theorem vkeyGt_asymm (a b : VKey) (h : vkeyGt a b = true) : vkeyGt b a = false := by
  by_contra hc
  have hba : vkeyGt b a = true := by
    cases hx : vkeyGt b a
    · exact absurd hx hc
    · rfl
  have : vkeyGt a a = true := vkeyGt_trans a b a h hba
  rw [vkeyGt_irrefl] at this
  exact Bool.false_ne_true this

/-! ## `max` computes a maximum of the key order -/

theorem foldl_maxStep_mem (l : List String) : ∀ x : String, l.foldl maxStep x ∈ x :: l := by
  induction l with
  | nil => intro x; exact List.mem_singleton.mpr rfl
  | cons y ys ih =>
    intro x
    simp only [List.foldl_cons]
    have hstep : maxStep x y = x ∨ maxStep x y = y := by
      unfold maxStep; split
      · right; rfl
      · left; rfl
    rcases hstep with he | he <;> rw [he]
    · rcases List.mem_cons.mp (ih x) with h' | h'
      · exact List.mem_cons.mpr (Or.inl h')
      · exact List.mem_cons.mpr (Or.inr (List.mem_cons.mpr (Or.inr h')))
    · rcases List.mem_cons.mp (ih y) with h' | h'
      · exact List.mem_cons.mpr (Or.inr (List.mem_cons.mpr (Or.inl h')))
      · exact List.mem_cons.mpr (Or.inr (List.mem_cons.mpr (Or.inr h')))

theorem foldl_maxStep_max (l : List String) :
    ∀ x w : String, w ∈ x :: l →
      vkeyGt (_version_sort_key w) (_version_sort_key (l.foldl maxStep x)) = false := by
  induction l with
  | nil =>
    intro x w hw
    rcases List.mem_cons.mp hw with h | h
    · rw [h]; exact vkeyGt_irrefl _
    · cases h
  | cons y ys ih =>
    intro x w hw
    simp only [List.foldl_cons]
    by_cases hxy : vkeyGt (_version_sort_key y) (_version_sort_key x) = true
    · have hstep : maxStep x y = y := by simp [maxStep, hxy]
      rw [hstep]
      rcases List.mem_cons.mp hw with h | h
      · -- w = x : its key is below y's, and y's key is not above the result
        rw [h]
        cases hres : vkeyGt (_version_sort_key x) (_version_sort_key (ys.foldl maxStep y))
        · rfl
        · exfalso
          have hy := ih y y (List.mem_cons.mpr (Or.inl rfl))
          have htr := vkeyGt_trans _ _ _ hxy hres
          rw [hy] at htr
          simp at htr
      · exact ih y w h
    · have hstep : maxStep x y = x := by simp [maxStep, hxy]
      rw [hstep]
      rcases List.mem_cons.mp hw with h | h
      · rw [h]; exact ih x x (List.mem_cons.mpr (Or.inl rfl))
      · rcases List.mem_cons.mp h with h' | h'
        · -- w = y : y's key is not above x's, and x's is not above the result
          rw [h']
          cases hres : vkeyGt (_version_sort_key y) (_version_sort_key (ys.foldl maxStep x))
          · rfl
          · exfalso
            have hx := ih x x (List.mem_cons.mpr (Or.inl rfl))
            rcases vkeyGt_trichotomy (_version_sort_key y) (_version_sort_key x) with ht | ht | ht
            · exact hxy ht
            · have htr := vkeyGt_trans _ _ _ ht hres
              rw [hx] at htr
              simp at htr
            · rw [ht, hx] at hres
              simp at hres
        · exact ih x w (List.mem_cons.mpr (Or.inr h'))

/-- C1 counterexample: the claim as stated fails on the code.  `"va"` and
`"ab"` both fail the semantic-version parse, so by the claim they should
order lexicographically, making `"va"` the maximum; the code instead
compares their v-stripped forms (`"a"` vs `"ab"`) and returns `"ab"`.
Moreover `_version_sort_key "v1"` takes the semantic (tag-0) path, not the
string fallback the claim asserts for `latest({"v1","v2"})`. -/
theorem C1_counterexample :
    resolve_latest_version ["va", "ab"] = .ok "ab"
      ∧ charListLt "ab".data "va".data = true
      ∧ parseRelease (vStrip "va".data) = none
      ∧ parseRelease (vStrip "ab".data) = none
      ∧ _version_sort_key "v1" = .sem [1] :=
  ⟨rfl, rfl, rfl, rfl, rfl⟩

/-- C1 (amended): the version comparison key is a total preorder on version
strings (trichotomous up to key equality, asymmetric and transitive); every
string whose v-stripped form parses as a release orders below every string
whose v-stripped form does not parse; among unparseable strings the order is
lexicographic on their v-stripped forms; `latest` returns an element of its
input that no input element's key strictly exceeds; and
`latest({"1.0.0","2.0.0","1.5.0"}) = "2.0.0"` while `latest({"v1","v2"})`
deterministically returns `"v2"` via numeric comparison of the stripped
forms. -/
theorem C1_version_order :
    (∀ a b : VKey, vkeyGt a b = true ∨ vkeyGt b a = true ∨ a = b)
      ∧ (∀ a b : VKey, vkeyGt a b = true → vkeyGt b a = false)
      ∧ (∀ a b c : VKey, vkeyGt a b = true → vkeyGt b c = true → vkeyGt a c = true)
      ∧ (∀ (v w : String) (r : List Nat) (s : List Char),
          _version_sort_key v = .sem r → _version_sort_key w = .str s →
            vkeyGt (_version_sort_key w) (_version_sort_key v) = true)
      ∧ (∀ (v w : String) (s t : List Char),
          _version_sort_key v = .str s → _version_sort_key w = .str t →
            (vkeyGt (_version_sort_key w) (_version_sort_key v) = true ↔ charListLt s t = true))
      ∧ (∀ (l : List String) (v : String), resolve_latest_version l = .ok v →
          v ∈ l ∧ ∀ w ∈ l, vkeyGt (_version_sort_key w) (_version_sort_key v) = false)
      ∧ resolve_latest_version ["1.0.0", "2.0.0", "1.5.0"] = .ok "2.0.0"
      ∧ resolve_latest_version ["v1", "v2"] = .ok "v2" := by
  refine ⟨vkeyGt_trichotomy, vkeyGt_asymm, vkeyGt_trans, ?_, ?_, ?_, rfl, rfl⟩
  · intro v w r s hv hw
    rw [hv, hw]
    rfl
  · intro v w s t hv hw
    rw [hv, hw]
    exact Iff.rfl
  · intro l v hv
    cases l with
    | nil => simp [resolve_latest_version, pyMaxByKey] at hv
    | cons v0 vs =>
      simp only [resolve_latest_version, pyMaxByKey, Except.ok.injEq] at hv
      constructor
      · rw [← hv]; exact foldl_maxStep_mem vs v0
      · intro w hw
        rw [← hv]
        exact foldl_maxStep_max vs v0 w hw

/-- C1 witness: the amended statement instantiated at concrete inputs. -/
theorem C1_version_order_witness :
    vkeyGt (_version_sort_key "abc") (_version_sort_key "1.0") = true
      ∧ "2.0.0" ∈ ["1.0.0", "2.0.0", "1.5.0"]
      ∧ vkeyGt (_version_sort_key "1.5.0") (_version_sort_key "2.0.0") = false := by
  refine ⟨C1_version_order.2.2.2.1 "1.0" "abc" [1] "abc".data rfl rfl, ?_, ?_⟩
  · exact (C1_version_order.2.2.2.2.2.1 ["1.0.0", "2.0.0", "1.5.0"] "2.0.0" rfl).1
  · exact (C1_version_order.2.2.2.2.2.1 ["1.0.0", "2.0.0", "1.5.0"] "2.0.0" rfl).2 "1.5.0"
      (by simp)

/-! ## Dict lemmas -/

theorem alookup_aset_self {β : Type} (k : String) (v : β) (d : List (String × β)) :
    alookup k (aset k v d) = some v := by
  induction d with
  | nil => simp [aset, alookup]
  | cons p rest ih =>
    obtain ⟨k', v'⟩ := p
    by_cases h : k' = k
    · simp [aset, alookup, h]
    · simp [aset, alookup, h, ih]

theorem alookup_aset_ne {β : Type} (k k' : String) (v : β) (d : List (String × β))
    (h : k' ≠ k) : alookup k (aset k' v d) = alookup k d := by
  induction d with
  | nil => simp [aset, alookup, h]
  | cons p rest ih =>
    obtain ⟨k₀, v₀⟩ := p
    by_cases h0 : k₀ = k'
    · subst h0
      simp [aset, alookup, h]
    · simp only [aset, if_neg h0, alookup]
      by_cases h1 : k₀ = k
      · simp [h1]
      · simp [h1, ih]

theorem alookup_insertAliases (al : String) (aliases : List String) (vm : VersionMap) :
    ∀ acc : Registry,
      alookup al (insertAliases aliases vm acc) =
        if al ∈ aliases then some vm else alookup al acc := by
  induction aliases with
  | nil => intro acc; simp [insertAliases]
  | cons a rest ih =>
    intro acc
    simp only [insertAliases, List.foldl_cons]
    have h := ih (aset a vm acc)
    simp only [insertAliases] at h
    rw [h]
    by_cases hmem : al ∈ rest
    · simp [hmem, List.mem_cons]
    · by_cases hal : al = a
      · subst hal
        simp [hmem, alookup_aset_self]
      · have : a ≠ al := fun hc => hal hc.symm
        simp [hmem, hal, alookup_aset_ne al a vm acc this]

theorem buildAliasAux_preserve (al : String) :
    ∀ (R : Registry) (acc : Registry), (∀ p ∈ R, al ∉ _aliases p.1) →
      alookup al (buildAliasAux acc R) = alookup al acc := by
  intro R
  induction R with
  | nil => intro acc _; rfl
  | cons p rest ih =>
    intro acc h
    obtain ⟨agent_id, vm⟩ := p
    simp only [buildAliasAux]
    rw [ih _ (fun q hq => h q (List.mem_cons.mpr (Or.inr hq)))]
    rw [alookup_insertAliases]
    have : al ∉ _aliases agent_id := h (agent_id, vm) (List.mem_cons.mpr (Or.inl rfl))
    simp [this]

theorem buildAliasAux_finds (al : String) :
    ∀ (R : Registry) (acc : Registry) (agent_id : String) (vm : VersionMap),
      (agent_id, vm) ∈ R →
      (R.map Prod.fst).Nodup →
      (∀ p₁ ∈ R, ∀ p₂ ∈ R, p₁.1 ≠ p₂.1 → ∀ a ∈ _aliases p₁.1, a ∉ _aliases p₂.1) →
      al ∈ _aliases agent_id →
      alookup al (buildAliasAux acc R) = some vm := by
  intro R
  induction R with
  | nil => intro acc agent_id vm hm; cases hm
  | cons p rest ih =>
    intro acc agent_id vm hm hnd hdisj hal
    obtain ⟨id₀, vm₀⟩ := p
    simp only [buildAliasAux]
    rcases List.mem_cons.mp hm with he | hr
    · -- our entry is the head: insert it, then show the tail never touches `al`
      have hid : id₀ = agent_id := congrArg Prod.fst he.symm
      have hvm : vm₀ = vm := congrArg Prod.snd he.symm
      subst hid; subst hvm
      rw [buildAliasAux_preserve al rest _ ?_]
      · rw [alookup_insertAliases]
        simp [hal]
      · intro q hq
        have hq' : q ∈ (id₀, vm₀) :: rest := List.mem_cons.mpr (Or.inr hq)
        have hne : (id₀, vm₀).1 ≠ q.1 := by
          intro hc
          have hc' : id₀ = q.1 := hc
          have : id₀ ∈ rest.map Prod.fst := by
            rw [hc']
            exact List.mem_map.mpr ⟨q, hq, rfl⟩
          exact (List.nodup_cons.mp hnd).1 this
        exact hdisj (id₀, vm₀) (List.mem_cons.mpr (Or.inl rfl)) q hq' hne al hal
    · -- our entry is in the tail: induction with the extended accumulator
      exact ih _ agent_id vm hr (List.nodup_cons.mp hnd).2
        (fun p₁ h₁ p₂ h₂ => hdisj p₁ (List.mem_cons.mpr (Or.inr h₁)) p₂
          (List.mem_cons.mpr (Or.inr h₂))) hal

/-- C2 counterexample: `"seo-opportunity_miner"` is a spelling of the
registered id `"seo_opportunity_miner"` obtained by interchanging one
separator, yet lookup fails with 404: the alias registry stores only the
all-underscore and all-hyphen variants and lookup only lowercases. -/
theorem C2_counterexample :
    claimSpelling "seo-opportunity_miner" "seo_opportunity_miner" = true
      ∧ _resolve_versions
          (_build_alias_registry
            [("seo_opportunity_miner",
              [("v1", trivialDef "seo_opportunity_miner" "v1")])])
          "seo-opportunity_miner" = .error (.http 404 "Agent not found") :=
  ⟨by decide, rfl⟩

/-- C2 (amended): for every registered agent id, any spelling whose
lowercasing equals one of the id's stored aliases — the lowercased id, its
all-underscore variant, or its all-hyphen variant, i.e. case changes plus a
uniform interchange of separators — resolves to that id's version map
(assuming distinct registered ids have disjoint alias sets, which holds when
no two ids collide after normalization).  Mixed-separator spellings are not
covered (see the counterexample). -/
theorem C2_alias_lookup (R : Registry)
    (hnd : (R.map Prod.fst).Nodup)
    (hdisj : ∀ p₁ ∈ R, ∀ p₂ ∈ R, p₁.1 ≠ p₂.1 → ∀ a ∈ _aliases p₁.1, a ∉ _aliases p₂.1)
    (agent_id : String) (vm : VersionMap) (hm : (agent_id, vm) ∈ R)
    (s : String) (hs : pyLower s ∈ _aliases agent_id) :
    _resolve_versions (_build_alias_registry R) s = .ok vm := by
  unfold _resolve_versions _build_alias_registry
  rw [show _normalize_agent_id s = pyLower s from rfl]
  rw [buildAliasAux_finds (pyLower s) R [] agent_id vm hm hnd hdisj hs]

/-- C2 witness: a registry with id `"Foo-Bar"`; the spellings `"FOO_BAR"`,
`"foo-bar"` and `"Foo_Bar"` all resolve to its version map. -/
theorem C2_alias_lookup_witness :
    _resolve_versions
        (_build_alias_registry [("Foo-Bar", [("1.0.0", trivialDef "Foo-Bar" "1.0.0")])])
        "FOO_BAR" = .ok [("1.0.0", trivialDef "Foo-Bar" "1.0.0")]
      ∧ _resolve_versions
          (_build_alias_registry [("Foo-Bar", [("1.0.0", trivialDef "Foo-Bar" "1.0.0")])])
          "Foo_Bar" = .ok [("1.0.0", trivialDef "Foo-Bar" "1.0.0")] := by
  constructor
  · exact C2_alias_lookup [("Foo-Bar", [("1.0.0", trivialDef "Foo-Bar" "1.0.0")])]
      (by simp)
      (by
        intro p₁ h₁ p₂ h₂ hne a _
        simp only [List.mem_singleton] at h₁ h₂
        rw [h₁, h₂] at hne
        exact absurd rfl hne)
      "Foo-Bar" [("1.0.0", trivialDef "Foo-Bar" "1.0.0")] (by simp)
      "FOO_BAR" (by decide)
  · exact C2_alias_lookup [("Foo-Bar", [("1.0.0", trivialDef "Foo-Bar" "1.0.0")])]
      (by simp)
      (by
        intro p₁ h₁ p₂ h₂ hne a _
        simp only [List.mem_singleton] at h₁ h₂
        rw [h₁, h₂] at hne
        exact absurd rfl hne)
      "Foo-Bar" [("1.0.0", trivialDef "Foo-Bar" "1.0.0")] (by simp)
      "Foo_Bar" (by decide)

/-! ## More dict lemmas, for registry well-formedness -/

theorem akeys_cons {β : Type} (p : String × β) (d : List (String × β)) :
    akeys (p :: d) = p.1 :: akeys d := rfl

theorem mem_of_alookup_eq_some {β : Type} {k : String} {v : β} :
    ∀ {d : List (String × β)}, alookup k d = some v → (k, v) ∈ d := by
  intro d
  induction d with
  | nil => intro h; cases h
  | cons p rest ih =>
    obtain ⟨k', v'⟩ := p
    intro h
    by_cases hk : k' = k
    · subst hk
      simp [alookup] at h
      exact List.mem_cons.mpr (Or.inl (by simp [h]))
    · simp only [alookup, if_neg hk] at h
      exact List.mem_cons.mpr (Or.inr (ih h))

theorem alookup_none_not_mem {β : Type} {k : String} :
    ∀ {d : List (String × β)}, alookup k d = none → k ∉ akeys d := by
  intro d
  induction d with
  | nil => intro _ hc; cases hc
  | cons p rest ih =>
    obtain ⟨k', v'⟩ := p
    intro h hc
    by_cases hk : k' = k
    · simp [alookup, hk] at h
    · simp only [alookup, if_neg hk] at h
      rcases List.mem_cons.mp hc with he | hm
    -- `akeys ((k', v') :: rest)` is `k' :: akeys rest`
      · exact hk he.symm
      · exact ih h hm

theorem akeys_aset_of_mem {β : Type} (k : String) (v : β) :
    ∀ d : List (String × β), k ∈ akeys d → akeys (aset k v d) = akeys d := by
  intro d
  induction d with
  | nil => intro h; cases h
  | cons p rest ih =>
    obtain ⟨k', v'⟩ := p
    intro h
    by_cases hk : k' = k
    · simp [aset, hk, akeys]
    · have hm : k ∈ akeys rest := by
        rcases List.mem_cons.mp h with he | hm
        · exact absurd he.symm hk
        · exact hm
      simp only [aset, if_neg hk, akeys_cons, ih hm]

theorem akeys_aset_of_not_mem {β : Type} (k : String) (v : β) :
    ∀ d : List (String × β), k ∉ akeys d → akeys (aset k v d) = akeys d ++ [k] := by
  intro d
  induction d with
  | nil => intro _; rfl
  | cons p rest ih =>
    obtain ⟨k', v'⟩ := p
    intro h
    have hk : k' ≠ k := by
      intro hc
      exact h (List.mem_cons.mpr (Or.inl hc.symm))
    have hm : k ∉ akeys rest := fun hc => h (List.mem_cons.mpr (Or.inr hc))
    simp only [aset, if_neg hk, akeys_cons, ih hm, List.cons_append]

theorem mem_aset_cases {β : Type} {k : String} {v : β} :
    ∀ {d : List (String × β)}, (akeys d).Nodup →
      ∀ {p : String × β}, p ∈ aset k v d → p = (k, v) ∨ (p ∈ d ∧ p.1 ≠ k) := by
  intro d
  induction d with
  | nil =>
    intro _ p hp
    simp only [aset] at hp
    exact Or.inl (List.mem_singleton.mp hp)
  | cons q rest ih =>
    obtain ⟨k', v'⟩ := q
    intro hnd p hp
    by_cases hk : k' = k
    · subst hk
      simp only [aset, if_pos rfl] at hp
      rcases List.mem_cons.mp hp with he | hm
      · exact Or.inl he
      · right
        refine ⟨List.mem_cons.mpr (Or.inr hm), ?_⟩
        intro hc
        have : p.1 ∈ akeys rest := List.mem_map.mpr ⟨p, hm, rfl⟩
        rw [hc] at this
        exact (List.nodup_cons.mp hnd).1 this
    · simp only [aset, if_neg hk] at hp
      rcases List.mem_cons.mp hp with he | hm
      · exact Or.inr ⟨List.mem_cons.mpr (Or.inl he), by rw [he]; exact hk⟩
      · rcases ih (List.nodup_cons.mp hnd).2 hm with h1 | h2
        · exact Or.inl h1
        · exact Or.inr ⟨List.mem_cons.mpr (Or.inr h2.1), h2.2⟩

/-! ## Registry well-formedness through discovery -/

theorem registerDefinition_WF (aid ver : String) (d : AgentDefinition) (reg : Registry)
    (hwf : RegistryWF reg) : RegistryWF (registerDefinition aid ver d reg) := by
  unfold registerDefinition
  cases hl : alookup aid reg with
  | some versions =>
    cases hdup : (alookup ver versions).isSome with
    | true => simpa [hdup] using hwf
    | false =>
      simp only [hdup, Bool.false_eq_true, if_false]
      have hmem : (aid, versions) ∈ reg := mem_of_alookup_eq_some hl
      have hkey : aid ∈ akeys reg := List.mem_map.mpr ⟨(aid, versions), hmem, rfl⟩
      have hvnd : (akeys versions).Nodup := hwf.2 (aid, versions) hmem
      have hvnone : alookup ver versions = none := by
        cases hv : alookup ver versions with
        | none => rfl
        | some _ => rw [hv] at hdup; simp at hdup
      have hvnot : ver ∉ akeys versions := alookup_none_not_mem hvnone
      constructor
      · rw [akeys_aset_of_mem aid _ reg hkey]
        exact hwf.1
      · intro p hp
        rcases mem_aset_cases hwf.1 hp with he | hm
        · rw [he]
          show (akeys (aset ver d versions)).Nodup
          rw [akeys_aset_of_not_mem ver d versions hvnot]
          simp [List.nodup_append, hvnd, hvnot]
        · exact hwf.2 p hm.1
  | none =>
    have hnot : aid ∉ akeys reg := alookup_none_not_mem hl
    constructor
    · rw [akeys_aset_of_not_mem aid _ reg hnot]
      simp [List.nodup_append, hwf.1, hnot]
    · intro p hp
      rcases mem_aset_cases hwf.1 hp with he | hm
      · rw [he]
        simp [akeys]
      · exact hwf.2 p hm.1

theorem discoverStep_WF {agentDirName : String} {reg reg' : Registry} {vd : VersionDir}
    (hwf : RegistryWF reg) (h : discoverStep agentDirName reg vd = .ok reg') :
    RegistryWF reg' := by
  unfold discoverStep at h
  split at h
  · cases h; exact hwf
  · split at h
    · cases h
    · split at h
      · split at h
        · cases h
        · cases h; exact registerDefinition_WF _ _ _ _ hwf
      · cases h

theorem discoverVersionDirs_WF (agentDirName : String) :
    ∀ (l : List VersionDir) (reg reg' : Registry), RegistryWF reg →
      discoverVersionDirs agentDirName reg l = .ok reg' → RegistryWF reg' := by
  intro l
  induction l with
  | nil => intro reg reg' hwf h; cases h; exact hwf
  | cons vd rest ih =>
    intro reg reg' hwf h
    simp only [discoverVersionDirs] at h
    cases hs : discoverStep agentDirName reg vd with
    | error e => rw [hs] at h; cases h
    | ok reg₁ =>
      rw [hs] at h
      exact ih reg₁ reg' (discoverStep_WF hwf hs) h

theorem discoverDirs_WF :
    ∀ (dirs : List AgentDir) (reg reg' : Registry), RegistryWF reg →
      discoverDirs reg dirs = .ok reg' → RegistryWF reg' := by
  intro dirs
  induction dirs with
  | nil => intro reg reg' hwf h; cases h; exact hwf
  | cons ad rest ih =>
    intro reg reg' hwf h
    simp only [discoverDirs] at h
    cases hs : discoverVersionDirs ad.name reg (sortByLe versionDirLe ad.versionDirs) with
    | error e => rw [hs] at h; cases h
    | ok reg₁ =>
      rw [hs] at h
      exact ih reg₁ reg' (discoverVersionDirs_WF ad.name _ reg reg₁ hwf hs) h

/-- C3: discovery never fails on a duplicate `(agent_id, version)` pair —
the step returns the registry unchanged (first registration wins, the later
definition is discarded) — and any registry discovery returns holds exactly
one entry per agent id and one per version within an id. -/
theorem C3_duplicate_registration :
    (∀ (dirs : List AgentDir) (R : Registry), discover_agents dirs = .ok R →
        (akeys R).Nodup ∧ ∀ p ∈ R, (akeys p.2).Nodup)
      ∧ (∀ (agentDirName : String) (reg : Registry) (vd : VersionDir) (mf : ManifestFile)
          (m : AgentManifest) (d : AgentDefinition) (vm : VersionMap),
          vd.manifestFile = some mf →
          load_manifest (manifestPathOf agentDirName vd.name) (some mf) = .ok m →
          vd.hasAgentPy = true →
          _load_agent_definition (modulePathOf agentDirName vd.name) vd.importResult m = .ok d →
          alookup m.agent_id reg = some vm →
          (alookup m.version vm).isSome = true →
          discoverStep agentDirName reg vd = .ok reg) := by
  constructor
  · intro dirs R h
    exact discoverDirs_WF (sortByLe agentDirLe dirs) [] R
      ⟨List.nodup_nil, fun p hp => absurd hp (List.not_mem_nil p)⟩ h
  · intro agentDirName reg vd mf m d vm h1 h2 h3 h4 h5 h6
    simp [discoverStep, registerDefinition, h1, h2, h3, h4, h5, h6]

/-- C3 witness: discovering one valid directory yields a registry with
distinct ids, and a second valid definition arriving for the occupied pair
`("x", "1.0.0")` leaves the registry unchanged. -/
theorem C3_duplicate_registration_witness :
    (akeys [("x", [("1.0.0", loadedDef)])]).Nodup
      ∧ discoverStep "x" regX goodDir = .ok regX := by
  constructor
  · exact (C3_duplicate_registration.1 [⟨"x", [goodDir]⟩] [("x", [("1.0.0", loadedDef)])] rfl).1
  · exact C3_duplicate_registration.2 "x" regX goodDir (.parsed (.obj goodManifestJson))
      goodManifest loadedDef [("1.0.0", trivialDef "x" "1.0.0")] rfl rfl rfl rfl rfl rfl

/-! ## C4: a manifest without an entrypoint aborts discovery -/

theorem mem_insertLe {α : Type} (le : α → α → Bool) (x : α) :
    ∀ (l : List α) (y : α), y ∈ insertLe le x l ↔ y = x ∨ y ∈ l := by
  intro l
  induction l with
  | nil => intro y; simp [insertLe]
  | cons z zs ih =>
    intro y
    simp only [insertLe]
    split
    · simp [List.mem_cons]
    · simp only [List.mem_cons, ih y]
      tauto

theorem mem_sortByLe {α : Type} (le : α → α → Bool) (l : List α) (y : α) (h : y ∈ l) :
    y ∈ sortByLe le l := by
  induction l with
  | nil => cases h
  | cons z zs ih =>
    simp only [sortByLe, List.foldr_cons]
    rw [mem_insertLe]
    rcases List.mem_cons.mp h with he | hm
    · left; exact he
    · right; exact ih hm

theorem discoverStep_missing_agent (agentDirName : String) (reg : Registry) (vd : VersionDir)
    (h1 : vd.manifestFile.isSome = true) (h2 : vd.hasAgentPy = false) :
    ∃ e, discoverStep agentDirName reg vd = .error e := by
  cases hm : vd.manifestFile with
  | none => rw [hm] at h1; simp at h1
  | some mf =>
    simp only [discoverStep, hm]
    cases hl : load_manifest (manifestPathOf agentDirName vd.name) (some mf) with
    | error e => exact ⟨.valueError e, rfl⟩
    | ok m =>
      simp only [h2, Bool.false_eq_true, if_false]
      exact ⟨_, rfl⟩

theorem discoverVersionDirs_error (agentDirName : String) (vd : VersionDir)
    (h1 : vd.manifestFile.isSome = true) (h2 : vd.hasAgentPy = false) :
    ∀ l : List VersionDir, vd ∈ l → ∀ reg : Registry,
      ∃ e, discoverVersionDirs agentDirName reg l = .error e := by
  intro l
  induction l with
  | nil => intro hm; cases hm
  | cons hd rest ih =>
    intro hm reg
    simp only [discoverVersionDirs]
    cases hs : discoverStep agentDirName reg hd with
    | error e => exact ⟨e, rfl⟩
    | ok reg' =>
      rcases List.mem_cons.mp hm with he | hmem
      · obtain ⟨e, he'⟩ := discoverStep_missing_agent agentDirName reg hd (he ▸ h1) (he ▸ h2)
        rw [hs] at he'
        cases he'
      · obtain ⟨e, he'⟩ := ih hmem reg'
        exact ⟨e, he'⟩

theorem discoverDirs_error (ad : AgentDir) (vd : VersionDir) (hvd : vd ∈ ad.versionDirs)
    (h1 : vd.manifestFile.isSome = true) (h2 : vd.hasAgentPy = false) :
    ∀ dirs : List AgentDir, ad ∈ dirs → ∀ reg : Registry,
      ∃ e, discoverDirs reg dirs = .error e := by
  intro dirs
  induction dirs with
  | nil => intro hm; cases hm
  | cons hd rest ih =>
    intro hm reg
    simp only [discoverDirs]
    cases hs : discoverVersionDirs hd.name reg (sortByLe versionDirLe hd.versionDirs) with
    | error e => exact ⟨e, rfl⟩
    | ok reg' =>
      rcases List.mem_cons.mp hm with he | hmem
      · obtain ⟨e, he'⟩ := discoverVersionDirs_error hd.name vd h1 h2
          (sortByLe versionDirLe hd.versionDirs)
          (mem_sortByLe versionDirLe hd.versionDirs vd (he ▸ hvd)) reg
        rw [hs] at he'
        cases he'
      · obtain ⟨e, he'⟩ := ih hmem reg'
        exact ⟨e, he'⟩

/-- C4: whenever some version directory has its manifest file present but
no `agent.py`, discovery of the whole tree fails (the directory is not
silently skipped): either its manifest aborts the pass on loading, or the
missing-entrypoint `RuntimeError` does. -/
theorem C4_missing_entrypoint (dirs : List AgentDir)
    (h : ∃ ad ∈ dirs, ∃ vd ∈ ad.versionDirs,
        vd.manifestFile.isSome = true ∧ vd.hasAgentPy = false) :
    ∃ e, discover_agents dirs = .error e := by
  obtain ⟨ad, had, vd, hvd, h1, h2⟩ := h
  exact discoverDirs_error ad vd hvd h1 h2 (sortByLe agentDirLe dirs)
    (mem_sortByLe agentDirLe dirs ad had) []

/-- C4 witness: a concrete tree whose only version directory has a valid
manifest and no `agent.py`. -/
theorem C4_missing_entrypoint_witness :
    ∃ e, discover_agents [⟨"x", [badVersionDir]⟩] = .error e :=
  C4_missing_entrypoint [⟨"x", [badVersionDir]⟩]
    ⟨⟨"x", [badVersionDir]⟩, List.mem_singleton.mpr rfl,
      badVersionDir, List.mem_singleton.mpr rfl, rfl, rfl⟩

/-! ## C8: manifest loading failure modes -/

/-- C8 counterexample: a manifest file whose content is the valid JSON
array `[]` has every required field missing, yet `load_manifest` does not
fail with the validation mode — the `AgentManifest(**payload)` call raises
an uncaught `TypeError` instead, a fourth failure mode outside the claimed
three. -/
theorem C8_counterexample :
    specRequiredFieldProblem (.arr []) = true
      ∧ load_manifest "agents/x/v1/manifest.json" (some (.parsed (.arr []))) =
          .error (.typeError "argument after ** must be a mapping") :=
  ⟨rfl, rfl⟩

/-- C8 (amended): an absent file fails with the not-found mode, text that
is not valid JSON fails with the parse mode, an object payload with a
required field missing or mistyped fails with the validation mode, and an
object payload whose required fields are all present and well-typed loads
successfully (the embedding is a pure function of the one file read); a
payload parsing to a non-object value instead escapes with an unclassified
`TypeError` (see the counterexample). -/
theorem C8_load_manifest :
    (∀ path, load_manifest path none = .error (.notFound path))
      ∧ (∀ path msg, load_manifest path (some (.invalidJson msg)) =
          .error (.parseError path msg))
      ∧ (∀ path fields msg, validateManifestFields fields = .error msg →
          load_manifest path (some (.parsed (.obj fields))) =
            .error (.validationError path msg))
      ∧ (∀ path fields m, validateManifestFields fields = .ok m →
          load_manifest path (some (.parsed (.obj fields))) = .ok m) := by
  refine ⟨fun path => rfl, fun path msg => rfl, ?_, ?_⟩
  · intro path fields msg h
    simp [load_manifest, h]
  · intro path fields m h
    simp [load_manifest, h]

/-- C8 witness: a fully valid object loads; the empty object fails with
the validation mode on its first required field. -/
theorem C8_load_manifest_witness :
    load_manifest "m1" (some (.parsed (.obj goodManifestJson))) = .ok goodManifest
      ∧ load_manifest "m2" (some (.parsed (.obj []))) =
          .error (.validationError "m2" "agent_id: Field required") :=
  ⟨C8_load_manifest.2.2.2 "m1" goodManifestJson goodManifest rfl,
   C8_load_manifest.2.2.1 "m2" [] "agent_id: Field required" rfl⟩

/-! ## C5 / C6 / C7: dispatch error handling -/

theorem run_agent_versioned (reg : Registry) (agent_id v : String)
    (payload : List (String × Json)) (vm : VersionMap) (d : AgentDefinition)
    (h1 : alookup (_normalize_agent_id agent_id) reg = some vm)
    (h2 : v ≠ "") (h3 : alookup v vm = some d) :
    run_agent reg agent_id payload (some v) = runWithDefinition d payload := by
  simp [run_agent, _resolve_versions, h1, h2, h3]

/-- C5: dispatch with an id resolving to no alias fails with 404 ("Agent
not found"); dispatch with a known id and an absent non-empty version fails
with 400 whose detail is built from the sorted list of the id's actually
available versions — and every available version appears in that sorted
list. -/
theorem C5_dispatch_errors :
    (∀ (reg : Registry) (agent_id : String) (payload : List (String × Json))
        (version : Option String),
        alookup (_normalize_agent_id agent_id) reg = none →
        run_agent reg agent_id payload version = .error (.http 404 "Agent not found"))
      ∧ (∀ (reg : Registry) (agent_id v : String) (payload : List (String × Json))
          (vm : VersionMap),
          alookup (_normalize_agent_id agent_id) reg = some vm → v ≠ "" →
          alookup v vm = none →
          run_agent reg agent_id payload (some v) =
            .error (.http 400 (versionNotFoundDetail v agent_id (akeys vm))))
      ∧ (∀ (ks : List String) (k : String), k ∈ ks → k ∈ pySorted ks) := by
  refine ⟨?_, ?_, ?_⟩
  · intro reg agent_id payload version h
    simp [run_agent, _resolve_versions, h]
  · intro reg agent_id v payload vm h1 h2 h3
    simp [run_agent, _resolve_versions, h1, h2, h3]
  · intro ks k h
    exact mem_sortByLe strLeB ks k h

/-- C5 witness: concrete unknown-id and unknown-version dispatches. -/
theorem C5_dispatch_errors_witness :
    run_agent [] "nope" [] none = .error (.http 404 "Agent not found")
      ∧ run_agent regX "x" [] (some "9") =
          .error (.http 400 (versionNotFoundDetail "9" "x" ["1.0.0"]))
      ∧ "1.0.0" ∈ pySorted ["1.0.0"] :=
  ⟨C5_dispatch_errors.1 [] "nope" [] none rfl,
   C5_dispatch_errors.2.1 regX "x" "9" [] [("1.0.0", trivialDef "x" "1.0.0")]
     rfl (by decide) rfl,
   C5_dispatch_errors.2.2 ["1.0.0"] "1.0.0" (by simp)⟩

/-- C6: a payload failing input-schema validation produces a 400 carrying
the underlying validation message, and the result is independent of the
definition's pipeline components (`build_graph`, `prepare_state`, output
validation are universally quantified), so no pipeline is built or run. -/
theorem C6_invalid_payload :
    (∀ (m : AgentManifest) (im : List (String × Json) → Except String Json) (om : Nat)
        (ov : Json → Except String Json) (bg : Except String (Json → Except String Json))
        (ps : Json → Except String Json) (mp : String)
        (payload : List (String × Json)) (msg : String),
        im payload = .error msg →
        runWithDefinition ⟨m, im, om, ov, bg, ps, mp⟩ payload =
          .error (.http 400 ("Invalid payload: " ++ msg)))
      ∧ (∀ (reg : Registry) (agent_id v : String) (payload : List (String × Json))
          (vm : VersionMap) (d : AgentDefinition) (msg : String),
          alookup (_normalize_agent_id agent_id) reg = some vm → v ≠ "" →
          alookup v vm = some d → d.input_model payload = .error msg →
          run_agent reg agent_id payload (some v) =
            .error (.http 400 ("Invalid payload: " ++ msg))) := by
  constructor
  · intro m im om ov bg ps mp payload msg h
    simp [runWithDefinition, h]
  · intro reg agent_id v payload vm d msg h1 h2 h3 h4
    rw [run_agent_versioned reg agent_id v payload vm d h1 h2 h3]
    simp [runWithDefinition, h4]

/-- C6 witness: a dispatch whose selected definition rejects the payload. -/
theorem C6_invalid_payload_witness :
    run_agent regX "x" [] (some "1.0.0") = .error (.http 400 "Invalid payload: unused") :=
  C6_invalid_payload.2 regX "x" "1.0.0" [] [("1.0.0", trivialDef "x" "1.0.0")]
    (trivialDef "x" "1.0.0") "unused" rfl (by decide) rfl rfl

/-- C7: an exception raised by `graph.invoke` is caught and surfaced as a
500 whose detail is the fixed string "Agent execution failed",
independently of the exception's message; and the versioned dispatch path
reduces to this guarded execution, so the catch sits at the dispatch
boundary. -/
theorem C7_execution_error :
    (∀ (m : AgentManifest) (im : List (String × Json) → Except String Json) (om : Nat)
        (ov : Json → Except String Json) (g : Json → Except String Json)
        (ps : Json → Except String Json) (mp : String)
        (payload : List (String × Json)) (parsed state : Json) (emsg : String),
        im payload = .ok parsed →
        ps parsed = .ok state →
        g state = .error emsg →
        runWithDefinition ⟨m, im, om, ov, .ok g, ps, mp⟩ payload =
          .error (.http 500 "Agent execution failed"))
      ∧ (∀ (reg : Registry) (agent_id v : String) (payload : List (String × Json))
          (vm : VersionMap) (d : AgentDefinition),
          alookup (_normalize_agent_id agent_id) reg = some vm → v ≠ "" →
          alookup v vm = some d →
          run_agent reg agent_id payload (some v) = runWithDefinition d payload) := by
  constructor
  · intro m im om ov g ps mp payload parsed state emsg h1 h2 h3
    simp [runWithDefinition, h1, h2, h3]
  · intro reg agent_id v payload vm d h1 h2 h3
    exact run_agent_versioned reg agent_id v payload vm d h1 h2 h3

/-- C7 witness: a concrete failing pipeline surfaces the fixed opaque
message. -/
theorem C7_execution_error_witness :
    runWithDefinition failingRunDef [] = .error (.http 500 "Agent execution failed") :=
  C7_execution_error.1 failingRunDef.manifest (fun _ => .ok .null) 2 (fun j => .ok j)
    (fun _ => .error "boom") (fun j => .ok j) "m" [] .null .null "boom" rfl rfl rfl

/-! ## C9: response-type composition -/

theorem dedupApp_mem (x : Nat) :
    ∀ (l acc : List Nat), x ∈ dedupApp acc l ↔ x ∈ acc ∨ x ∈ l := by
  intro l
  induction l with
  | nil => intro acc; simp [dedupApp]
  | cons m ms ih =>
    intro acc
    simp only [dedupApp]
    by_cases hm : m ∈ acc
    · rw [if_pos hm, ih acc]
      constructor
      · rintro (h | h)
        · exact Or.inl h
        · exact Or.inr (List.mem_cons.mpr (Or.inr h))
      · rintro (h | h)
        · exact Or.inl h
        · rcases List.mem_cons.mp h with he | hmm
          · exact Or.inl (he ▸ hm)
          · exact Or.inr hmm
    · rw [if_neg hm, ih (acc ++ [m])]
      simp only [List.mem_append, List.mem_singleton, List.mem_cons]
      tauto

theorem dedupApp_const :
    ∀ (l acc : List Nat), (∀ x ∈ l, x ∈ acc) → dedupApp acc l = acc := by
  intro l
  induction l with
  | nil => intro acc _; rfl
  | cons m ms ih =>
    intro acc h
    have hm : m ∈ acc := h m (List.mem_cons.mpr (Or.inl rfl))
    simp only [dedupApp, if_pos hm]
    exact ih acc fun x hx => h x (List.mem_cons.mpr (Or.inr hx))

theorem dedup_of_all_eq (m : Nat) :
    ∀ l : List Nat, l ≠ [] → (∀ x ∈ l, x = m) → dedupApp [] l = [m] := by
  intro l
  cases l with
  | nil => intro h; exact absurd rfl h
  | cons a as =>
    intro _ h
    have ha : a = m := h a (List.mem_cons.mpr (Or.inl rfl))
    subst ha
    simp only [dedupApp, List.not_mem_nil, if_neg (List.not_mem_nil a), List.nil_append]
    exact dedupApp_const as [a] fun x hx =>
      List.mem_singleton.mpr (h x (List.mem_cons.mpr (Or.inr hx)))

/-- C9: with zero definitions the composer enforces no output shape; when
every definition shares one output schema it returns exactly that schema;
with two or more distinct schemas it returns a union covering every
definition's output schema.  The composer is a total function — it never
fails registration (the source's warning fallback is unreachable). -/
theorem C9_response_model :
    (∀ reg : Registry, allDefs reg = [] → _build_response_model reg = none)
      ∧ (∀ (reg : Registry) (m : Nat), allDefs reg ≠ [] →
          (∀ d ∈ allDefs reg, d.output_model = m) →
          _build_response_model reg = some (.model m))
      ∧ (∀ (reg : Registry) (d₁ d₂ : AgentDefinition),
          d₁ ∈ allDefs reg → d₂ ∈ allDefs reg → d₁.output_model ≠ d₂.output_model →
          ∃ ms, _build_response_model reg = some (.union ms)
            ∧ ∀ d ∈ allDefs reg, d.output_model ∈ ms) := by
  refine ⟨?_, ?_, ?_⟩
  · intro reg h
    simp [_build_response_model, uniqueModels, h, dedupApp]
  · intro reg m hne h
    have hl : dedupApp [] ((allDefs reg).map AgentDefinition.output_model) = [m] := by
      apply dedup_of_all_eq
      · simp only [ne_eq, List.map_eq_nil_iff]
        exact hne
      · intro x hx
        obtain ⟨d, hd, hdx⟩ := List.mem_map.mp hx
        rw [← hdx]
        exact h d hd
    simp only [_build_response_model, uniqueModels, hl]
  · intro reg d₁ d₂ h₁ h₂ hne
    have hm₁ : d₁.output_model ∈ uniqueModels reg := by
      rw [uniqueModels, dedupApp_mem]
      exact Or.inr (List.mem_map.mpr ⟨d₁, h₁, rfl⟩)
    have hm₂ : d₂.output_model ∈ uniqueModels reg := by
      rw [uniqueModels, dedupApp_mem]
      exact Or.inr (List.mem_map.mpr ⟨d₂, h₂, rfl⟩)
    match hu : uniqueModels reg with
    | [] => rw [hu] at hm₁; cases hm₁
    | [x] =>
      rw [hu] at hm₁ hm₂
      rw [List.mem_singleton.mp hm₁, List.mem_singleton.mp hm₂] at hne
      exact absurd rfl hne
    | x₁ :: x₂ :: rest =>
      refine ⟨x₁ :: x₂ :: rest, ?_, ?_⟩
      · simp only [_build_response_model, hu]
      · intro d hd
        have : d.output_model ∈ uniqueModels reg := by
          rw [uniqueModels, dedupApp_mem]
          exact Or.inr (List.mem_map.mpr ⟨d, hd, rfl⟩)
        rw [hu] at this
        exact this

/-- C9 witness: the empty registry, a one-schema registry, and a
two-schema registry. -/
theorem C9_response_model_witness :
    _build_response_model [] = none
      ∧ _build_response_model regX = some (.model 0)
      ∧ ∃ ms, _build_response_model regUnion = some (.union ms)
          ∧ (0 : Nat) ∈ ms := by
  refine ⟨C9_response_model.1 [] rfl, ?_, ?_⟩
  · refine C9_response_model.2.1 regX 0 ?_ ?_
    · exact fun h => List.cons_ne_nil _ _ h
    · intro d hd
      have hd' : d ∈ [trivialDef "x" "1.0.0"] := hd
      rw [List.mem_singleton.mp hd']
      rfl
  · have hmem₁ : trivialDef "x" "1" ∈ allDefs regUnion :=
      List.mem_cons.mpr (Or.inl rfl)
    have hmem₂ : loadedDef ∈ allDefs regUnion :=
      List.mem_cons.mpr (Or.inr (List.mem_cons.mpr (Or.inl rfl)))
    obtain ⟨ms, hms, hcov⟩ := C9_response_model.2.2 regUnion (trivialDef "x" "1") loadedDef
      hmem₁ hmem₂ (by decide)
    exact ⟨ms, hms, hcov (trivialDef "x" "1") hmem₁⟩

/-! ## C10: the run ledger replaces on re-save -/

theorem countKey_aset (k : String) (v : AgentRunRecord) :
    ∀ db : RunDb, countKey k db ≤ 1 → countKey k (aset k v db) = 1 := by
  intro db
  induction db with
  | nil => intro _; simp [countKey, aset, List.filter]
  | cons p rest ih =>
    obtain ⟨k', v'⟩ := p
    intro h
    by_cases hk : k' = k
    · have hb : (k' == k) = true := beq_iff_eq.mpr hk
      have hgoal : countKey k (aset k v ((k', v') :: rest)) =
          (rest.filter (fun p => p.1 == k)).length + 1 := by
        simp [aset, if_pos hk, countKey, List.filter_cons]
      have hh : (rest.filter (fun p => p.1 == k)).length + 1 ≤ 1 := by
        simpa [countKey, List.filter_cons, hb] using h
      rw [hgoal]
      omega
    · have hbk : (k' == k) = false := beq_eq_false_iff_ne.mpr hk
      simp only [countKey, aset, if_neg hk, List.filter, hbk] at h ⊢
      exact ih h

/-- C10: re-saving under an existing `run_id` replaces the stored row
(`INSERT OR REPLACE` on the primary key): after two saves with different
field values, `get_run` returns exactly the serialized fields of the
second save, and the table still holds exactly one row for that id. -/
theorem C10_save_replaces :
    (∀ (db : RunDb) (run_id a₁ v₁ a₂ v₂ : String) (i₁ o₁ i₂ o₂ : Json)
        (md₁ md₂ : Option Json) (c₁ c₂ : Option String) (n₁ n₂ : String),
        get_run (save_run run_id a₂ v₂ i₂ o₂ md₂ c₂ n₂
                  (save_run run_id a₁ v₁ i₁ o₁ md₁ c₁ n₁ db)) run_id =
          some { run_id := run_id, agent_id := a₂, agent_version := v₂
                 input_schema := _serialize_json i₂
                 output_schema := _serialize_json o₂
                 metadata := md₂.map _serialize_json
                 created_at := c₂.getD n₂ })
      ∧ (∀ (db : RunDb) (run_id a₁ v₁ a₂ v₂ : String) (i₁ o₁ i₂ o₂ : Json)
          (md₁ md₂ : Option Json) (c₁ c₂ : Option String) (n₁ n₂ : String),
          countKey run_id db ≤ 1 →
          countKey run_id (save_run run_id a₂ v₂ i₂ o₂ md₂ c₂ n₂
            (save_run run_id a₁ v₁ i₁ o₁ md₁ c₁ n₁ db)) = 1) := by
  constructor
  · intro db run_id a₁ v₁ a₂ v₂ i₁ o₁ i₂ o₂ md₁ md₂ c₁ c₂ n₁ n₂
    simp [get_run, save_run, alookup_aset_self, _row_to_record]
  · intro db run_id a₁ v₁ a₂ v₂ i₁ o₁ i₂ o₂ md₁ md₂ c₁ c₂ n₁ n₂ h
    have h1 : countKey run_id (save_run run_id a₁ v₁ i₁ o₁ md₁ c₁ n₁ db) = 1 :=
      countKey_aset run_id _ db h
    exact countKey_aset run_id _ _ (Nat.le_of_eq h1)

/-- C10 witness: two concrete saves under one id. -/
theorem C10_save_replaces_witness :
    get_run (save_run "r1" "a" "2" (.str "i2") .null none (some "T2") "N"
              (save_run "r1" "a" "1" (.str "i1") .null none (some "T1") "N" [])) "r1" =
        some { run_id := "r1", agent_id := "a", agent_version := "2"
               input_schema := "i2", output_schema := "null"
               metadata := none, created_at := "T2" }
      ∧ countKey "r1" (save_run "r1" "a" "2" (.str "i2") .null none (some "T2") "N"
          (save_run "r1" "a" "1" (.str "i1") .null none (some "T1") "N" [])) = 1 :=
  ⟨C10_save_replaces.1 [] "r1" "a" "1" "a" "2" (.str "i1") .null (.str "i2") .null
      none none (some "T1") (some "T2") "N" "N",
   C10_save_replaces.2 [] "r1" "a" "1" "a" "2" (.str "i1") .null (.str "i2") .null
      none none (some "T1") (some "T2") "N" "N" (by decide)⟩

end EasOps
